import Mathlib

/-!
Verification of the task-manager backend (Express + Mongoose).

The development shallowly embeds the authentication / ownership core of the
repository:

* `src/backend/src/models/User.js`   — user schema, `generateAuthToken`,
  `toJSON`, `findByCredentials`, the password-hashing `pre('save')` hook;
* `src/backend/src/models/Task.js`   — task schema;
* the authentication middleware (`auth`)  — JWT verification plus
  token-set membership;
* `src/backend/src/routes/auth.js`   — signup, login, logout, logoutAll,
  profile read/update, account deletion;
* `src/backend/src/routes/tasks.js`  — task CRUD with owner scoping.

Mongoose string options (`trim`, `lowercase`) and the external libraries
(`bcryptjs`, `jsonwebtoken`) are modelled explicitly below; each model is
documented at its definition.
-/

namespace TaskManager

/-! ### JavaScript runtime string operations

`String.prototype.trim` and `String.prototype.toLowerCase` (for the ASCII
range used by the schemas) as applied by the mongoose `trim: true` and
`lowercase: true` setters. -/

/-- The character list of a JS `String.prototype.trim`: drop leading
whitespace, then drop trailing whitespace. -/
def trimChars (l : List Char) : List Char :=
  ((l.dropWhile Char.isWhitespace).reverse.dropWhile Char.isWhitespace).reverse

/-- JS `String.prototype.trim` (mongoose `trim: true` setter). -/
def jsTrim (s : String) : String := ⟨trimChars s.data⟩

/-- JS `String.prototype.toLowerCase` on the ASCII range (mongoose
`lowercase: true` setter); `Char.toLower` is exactly the ASCII case map. -/
def jsToLower (s : String) : String := ⟨s.data.map Char.toLower⟩

theorem charToNat_inj {a b : Char} (h : a.toNat = b.toNat) : a = b := by
  have ha := Char.ofNat_toNat a
  have hb := Char.ofNat_toNat b
  rw [h, hb] at ha
  exact ha.symm

theorem charToNat_ofNat_valid (m : Nat) (h : m < 55296) : (Char.ofNat m).toNat = m := by
  unfold Char.ofNat
  rw [dif_pos (Or.inl h)]
  rfl

theorem charWs_toNat (c : Char) :
    c.isWhitespace = (c.toNat == 32 || c.toNat == 9 || c.toNat == 13 || c.toNat == 10) := by
  unfold Char.isWhitespace
  congr 1
  · congr 1
    · congr 1
      · by_cases h : c = ' '
        · subst h; decide
        · simp [h]
          intro hc
          exact h (charToNat_inj hc)
      · by_cases h : c = '\t'
        · subst h; decide
        · simp [h]
          intro hc
          exact h (charToNat_inj hc)
    · by_cases h : c = '\x0d'
      · subst h; decide
      · simp [h]
        intro hc
        exact h (charToNat_inj hc)
  · by_cases h : c = '\n'
    · subst h; decide
    · simp [h]
      intro hc
      exact h (charToNat_inj hc)

theorem charLower_ws (c : Char) : (Char.toLower c).isWhitespace = c.isWhitespace := by
  unfold Char.toLower
  by_cases h : c.toNat ≥ 65 ∧ c.toNat ≤ 90
  · rw [if_pos h]
    rw [charWs_toNat, charWs_toNat]
    rw [charToNat_ofNat_valid _ (by omega)]
    obtain ⟨h1, h2⟩ := h
    have hs : ∀ m : Nat, 33 ≤ m → (m == 32 || m == 9 || m == 13 || m == 10) = false := by
      intro m hm
      simp only [Bool.or_eq_false_iff, beq_eq_false_iff_ne, ne_eq]
      omega
    rw [hs _ (by omega), hs _ (by omega)]
  · rw [if_neg h]

theorem charLower_idem (c : Char) : Char.toLower (Char.toLower c) = Char.toLower c := by
  unfold Char.toLower
  by_cases h : c.toNat ≥ 65 ∧ c.toNat ≤ 90
  · rw [if_pos h]
    rw [charToNat_ofNat_valid _ (by omega)]
    rw [if_neg (by omega)]
  · rw [if_neg h, if_neg h]

theorem dropWhile_dropWhile (p : α → Bool) (l : List α) :
    (l.dropWhile p).dropWhile p = l.dropWhile p := by
  induction l with
  | nil => rfl
  | cons a l ih =>
    by_cases h : p a
    · simp [List.dropWhile_cons, h, ih]
    · simp [List.dropWhile_cons, h]

theorem dropWhile_of_head (p : α → Bool) (l : List α)
    (h : ∀ c, l.head? = some c → p c = false) : l.dropWhile p = l := by
  cases l with
  | nil => rfl
  | cons a l =>
    have := h a rfl
    simp [List.dropWhile_cons, this]

theorem head?_dropWhile_false (p : α → Bool) (l : List α) (c : α)
    (h : (l.dropWhile p).head? = some c) : p c = false := by
  have := List.head?_dropWhile_not p l
  rw [h] at this
  exact this

/-- The result of `trimChars` has no leading whitespace. -/
theorem dropWhile_trimChars (l : List Char) :
    (trimChars l).dropWhile Char.isWhitespace = trimChars l := by
  unfold trimChars
  set R := ((l.dropWhile Char.isWhitespace).reverse.dropWhile Char.isWhitespace) with hR
  apply dropWhile_of_head
  intro c hc
  rw [List.head?_reverse] at hc
  -- the last element of R is the last of the suffix source list, whose
  -- reverse-head is the head of a dropWhile result
  obtain ⟨pre, hpre⟩ := List.dropWhile_suffix (l := (l.dropWhile Char.isWhitespace).reverse)
    (p := Char.isWhitespace)
  rw [← hR] at hpre
  have hlast : ((l.dropWhile Char.isWhitespace).reverse).getLast? = some c := by
    rw [← hpre, List.getLast?_append, hc]
    rfl
  rw [List.getLast?_reverse] at hlast
  exact head?_dropWhile_false _ _ _ hlast

theorem trimChars_idem (l : List Char) : trimChars (trimChars l) = trimChars l := by
  conv_lhs => rw [trimChars]
  rw [dropWhile_trimChars]
  unfold trimChars
  rw [List.reverse_reverse, dropWhile_dropWhile]

/-- `trimChars` commutes with ASCII lowercasing. -/
theorem trimChars_map_toLower (l : List Char) :
    trimChars (l.map Char.toLower) = (trimChars l).map Char.toLower := by
  have hpf : (Char.isWhitespace ∘ Char.toLower) = Char.isWhitespace := by
    funext c
    exact charLower_ws c
  unfold trimChars
  rw [List.dropWhile_map, hpf, ← List.map_reverse, List.dropWhile_map, hpf,
    ← List.map_reverse]

theorem jsTrim_idem (s : String) : jsTrim (jsTrim s) = jsTrim s := by
  unfold jsTrim
  exact congrArg String.mk (trimChars_idem s.data)

theorem jsTrim_jsToLower (s : String) : jsTrim (jsToLower s) = jsToLower (jsTrim s) := by
  unfold jsTrim jsToLower
  exact congrArg String.mk (trimChars_map_toLower s.data)

theorem jsToLower_idem (s : String) : jsToLower (jsToLower s) = jsToLower s := by
  unfold jsToLower
  apply congrArg String.mk
  rw [List.map_map]
  apply List.map_congr_left
  intro c _
  exact charLower_idem c

/-! ### bcryptjs model

`User.js` stores only `bcrypt.hash(password, 8)` and checks credentials with
`bcrypt.compare(candidate, storedHash)`.  The library is modelled as an ideal
collision-free adaptive hash: `compare q (hash p)` succeeds exactly when
`q = p`, and a hash is never equal to any plaintext that could have produced
it (real bcrypt hashes carry a `$2a$08$...` marker). -/

/-- Model of `bcrypt.hash(p, 8)` (`User.js`, pre-save hook). -/
def bcryptHash (p : String) : String := "bcrypt8$" ++ p

/-- Model of `bcrypt.compare(candidate, stored)` (`User.js`,
`findByCredentials`). -/
def bcryptCompare (candidate stored : String) : Bool :=
  bcryptHash candidate == stored

theorem bcryptCompare_hash (candidate p : String) :
    bcryptCompare candidate (bcryptHash p) = true ↔ candidate = p := by
  unfold bcryptCompare bcryptHash
  rw [beq_iff_eq]
  constructor
  · intro h
    have hd := congrArg String.data h
    rw [String.data_append, String.data_append] at hd
    have := List.append_cancel_left hd
    cases candidate
    cases p
    exact congrArg String.mk this
  · intro h
    rw [h]

/-- A stored hash of a trimmed password is never the submitted plaintext:
`"bcrypt8$" ++ trimChars l ≠ l` at the character-list level. -/
theorem bcryptHash_trim_ne (l : List Char) :
    "bcrypt8$".data ++ trimChars l ≠ l := by
  intro h
  have hdw : l.dropWhile Char.isWhitespace = l := by
    apply dropWhile_of_head
    intro c hc
    rw [← h] at hc
    simp only [List.head?_append] at hc
    have : ("bcrypt8$".data).head? = some 'b' := by decide
    rw [this] at hc
    simp only [Option.or_some] at hc
    cases hc
    decide
  set R := l.reverse.dropWhile Char.isWhitespace with hRdef
  have hTr : trimChars l = R.reverse := by
    unfold trimChars
    rw [hdw]
  have hrev : l.reverse = R ++ "bcrypt8$".data.reverse := by
    conv_lhs => rw [← h]
    rw [List.reverse_append, hTr, List.reverse_reverse]
  have hReq : R = (R ++ "bcrypt8$".data.reverse).dropWhile Char.isWhitespace := by
    rw [← hrev]
  cases hR : R with
  | nil =>
    rw [hR] at hReq
    simp only [List.nil_append] at hReq
    have : ("bcrypt8$".data.reverse).dropWhile Char.isWhitespace =
        "bcrypt8$".data.reverse := by decide
    rw [this] at hReq
    exact absurd hReq.symm (by decide)
  | cons c R' =>
    have hc : Char.isWhitespace c = false := by
      apply head?_dropWhile_false Char.isWhitespace l.reverse c
      rw [← hRdef, hR]
      rfl
    rw [hR] at hReq
    rw [List.cons_append, List.dropWhile_cons, hc] at hReq
    simp only [Bool.false_eq_true, if_false] at hReq
    have hlen := congrArg List.length hReq
    rw [List.length_cons, List.length_cons, List.length_append] at hlen
    have h8 : ("bcrypt8$".data.reverse).length = 8 := by decide
    rw [h8] at hlen
    omega

/-! ### jsonwebtoken model

`jwt.sign({_id}, secret, {expiresIn: '7 days'})` and
`jwt.verify(token, secret)`.  A token is its payload (embedded user id and
absolute expiry) together with a signature; the signature is modelled by an
executable keyed MAC, so tampering with the payload is detected exactly when
the MAC no longer matches. -/

abbrev UserId := Nat
abbrev TaskId := Nat

structure Payload where
  uid : UserId
  exp : Nat
deriving DecidableEq, Repr

/-- Executable stand-in for the HMAC used by `jsonwebtoken`. -/
def jwtMac (secret : String) (p : Payload) : Nat :=
  (secret.data.foldl (fun h c => h * 65599 + c.toNat) 5381) * 1000003
    + p.uid * 7919 + p.exp * 31 + 1

structure Token where
  payload : Payload
  sig : Nat
deriving DecidableEq, Repr

/-- `jwt.sign({_id: user._id}, process.env.JWT_SECRET, {expiresIn: '7 days'})`
(`User.js`, `generateAuthToken`). -/
def jwtSign (secret : String) (uid : UserId) (now : Nat) : Token :=
  let p : Payload := ⟨uid, now + 7 * 24 * 3600⟩
  ⟨p, jwtMac secret p⟩

/-- `jwt.verify(token, process.env.JWT_SECRET)` (auth middleware): checks the
signature and the expiry, returning the embedded user id. -/
def jwtVerify (secret : String) (now : Nat) (t : Token) : Option UserId :=
  if t.sig = jwtMac secret t.payload ∧ now < t.payload.exp then
    some t.payload.uid
  else
    none

/-! ### Data model -/

inductive Priority
  | low
  | medium
  | high
deriving DecidableEq, Repr

/-- `Task.js`: `taskSchema` — description (required), completed
(default false), priority (enum low/medium/high, default medium), optional
dueDate, owner (required user reference). -/
structure Task where
  id : TaskId
  description : String
  completed : Bool
  priority : Priority
  dueDate : Option Nat
  owner : UserId
deriving DecidableEq, Repr

/-- `User.js`: `userSchema` — name (required, trimmed), email (required,
unique, lowercased, trimmed, must contain `@`), password (required,
min length 6, trimmed; stored as a bcrypt hash), and the per-user session
token array `tokens`. -/
structure StoredUser where
  id : UserId
  name : String
  email : String
  password : String
  tokens : List Token
deriving DecidableEq, Repr

/-- The two mongoose collections. -/
structure DB where
  users : List StoredUser
  tasks : List Task
deriving DecidableEq, Repr

/-- An HTTP error response: status code and the `error` message sent to the
client. -/
structure ApiError where
  status : Nat
  message : String
deriving DecidableEq, Repr

/-- `{ error: 'Task not found' }` with status 404 — the single error used by
GET/PATCH/DELETE `/tasks/:id` when `findOne({_id, owner})` matches nothing. -/
def taskNotFound : ApiError := ⟨404, "Task not found"⟩

/-- `{ error: 'Please authenticate' }` with status 401 from the auth
middleware. -/
def authError : ApiError := ⟨401, "Please authenticate"⟩

/-- `{ error: 'Invalid updates' }` with status 400 from the PATCH allow-list
checks. -/
def invalidUpdates : ApiError := ⟨400, "Invalid updates"⟩

/-- A mongoose validation failure surfaced as status 400. -/
def validationError : ApiError := ⟨400, "ValidationError"⟩

/-- A MongoDB unique-index violation (duplicate `_id` or `email`) surfaced as
status 400. -/
def duplicateKeyError : ApiError := ⟨400, "E11000 duplicate key error"⟩

/-- `{ error: 'Unable to login' }` thrown by `findByCredentials`. -/
def unableToLogin : ApiError := ⟨400, "Unable to login"⟩

/-- `{ error: 'Invalid login credentials' }`, status 400, sent by
POST `/users/login` on any `findByCredentials` failure. -/
def invalidLogin : ApiError := ⟨400, "Invalid login credentials"⟩

/-- The email validator `value.includes('@')` (`User.js`,
`userSchema.email.validate`), over the character data. -/
def containsChar (s : String) (c : Char) : Bool := s.data.contains c

/-- The mongoose `email` path setters: `lowercase: true` and `trim: true`
(`User.js`, `userSchema.email`). -/
def normEmail (e : String) : String := jsToLower (jsTrim e)

/-! ### Authentication middleware

`middleware/auth.js`: extract the bearer token, `jwt.verify` it, then
`User.findOne({_id: decoded._id, 'tokens.token': token})`; any failure is the
single 401 response. -/

/-- `User.findOne({_id: uid, 'tokens.token': token})`. -/
def findUserWithToken (db : DB) (uid : UserId) (t : Token) : Option StoredUser :=
  db.users.find? fun u => u.id == uid && u.tokens.contains t

/-- The `auth` middleware.  `cred = none` models a missing/unparseable
`Authorization` header (the `.replace` call throws). -/
def auth (secret : String) (now : Nat) (db : DB) (cred : Option Token) :
    Except ApiError (StoredUser × Token) :=
  match cred with
  | none => .error authError
  | some t =>
    match jwtVerify secret now t with
    | none => .error authError
    | some uid =>
      match findUserWithToken db uid t with
      | none => .error authError
      | some u => .ok (u, t)

/-! ### Serialization

`userSchema.methods.toJSON` (`User.js`): convert the document to a plain
object and delete the `password` and `tokens` fields.  `res.send(user)`
serializes through this method on every client-facing path. -/

inductive JsonValue
  | str (s : String)
  | bool (b : Bool)
  | num (n : Nat)
  | arr (elems : List JsonValue)

def tokenJson (t : Token) : JsonValue :=
  .arr [.num t.payload.uid, .num t.payload.exp, .num t.sig]

/-- `user.toObject()`: the raw document fields. -/
def toObject (u : StoredUser) : List (String × JsonValue) :=
  [("_id", .num u.id), ("name", .str u.name), ("email", .str u.email),
   ("password", .str u.password), ("tokens", .arr (u.tokens.map tokenJson))]

/-- `delete userObject[k]`. -/
def deleteKey (o : List (String × JsonValue)) (k : String) :
    List (String × JsonValue) :=
  o.filter fun kv => kv.1 != k

/-- `userSchema.methods.toJSON`: `delete userObject.password;
delete userObject.tokens`. -/
def toJSON (u : StoredUser) : List (String × JsonValue) :=
  deleteKey (deleteKey (toObject u) "password") "tokens"

/-! ### Auth routes (`routes/auth.js`) -/

/-- POST `/users/signup`: `new User(req.body)` (schema setters normalize the
fields), `save()` (validation, then the password-hashing pre-save hook, then
the insert with its unique-index checks on `_id` and `email`), then
`generateAuthToken()` appends a fresh token and saves again.  Returns the
stored user, the token, and the new store. -/
def signup (db : DB) (newId : UserId) (now : Nat) (secret : String)
    (name email password : String) : Except ApiError (StoredUser × Token × DB) :=
  let name := jsTrim name
  let email := normEmail email
  let password := jsTrim password
  if name = "" then .error validationError
  else if ¬ containsChar email '@' then .error validationError
  else if password.length < 6 then .error validationError
  else if db.users.any (fun u => u.id == newId || u.email == email) then
    .error duplicateKeyError
  else
    let tok := jwtSign secret newId now
    let u : StoredUser := ⟨newId, name, email, bcryptHash password, [tok]⟩
    .ok (u, tok, { db with users := db.users ++ [u] })

/-- `User.findByCredentials(email, password)` (`User.js`):
`findOne({email})` then `bcrypt.compare`; both failures throw the same
`'Unable to login'`. -/
def findByCredentials (db : DB) (email password : String) :
    Except ApiError StoredUser :=
  match db.users.find? (fun u => u.email == email) with
  | none => .error unableToLogin
  | some u =>
    if bcryptCompare password u.password then .ok u
    else .error unableToLogin

/-- Replace the stored document for `u.id` (a mongoose `save()` of a loaded,
modified document). -/
def saveUser (db : DB) (u : StoredUser) : DB :=
  { db with users := db.users.map fun x => if x.id == u.id then u else x }

/-- POST `/users/login`: `findByCredentials` then `generateAuthToken()`
(appends the fresh token to `user.tokens` and saves). -/
def login (db : DB) (now : Nat) (secret : String) (email password : String) :
    Except ApiError (StoredUser × Token × DB) :=
  match findByCredentials db email password with
  | .error _ => .error invalidLogin
  | .ok u =>
    let tok := jwtSign secret u.id now
    let u2 := { u with tokens := u.tokens ++ [tok] }
    .ok (u2, tok, saveUser db u2)

/-- POST `/users/logout`: `req.user.tokens = req.user.tokens.filter(t => t.token !== req.token)`
then `save()`. -/
def logout (db : DB) (u : StoredUser) (t : Token) : DB :=
  saveUser db { u with tokens := u.tokens.filter fun tk => tk != t }

/-- POST `/users/logoutAll`: `req.user.tokens = []` then `save()`. -/
def logoutAll (db : DB) (u : StoredUser) : DB :=
  saveUser db { u with tokens := [] }

/-- PATCH `/users/me` allow-list. -/
def userAllowedUpdates : List String := ["name", "email", "password"]

/-- Assigning one field of `req.body` onto `req.user` (schema setters
applied). -/
def applyProfileField (u : StoredUser) (kv : String × String) : StoredUser :=
  if kv.1 = "name" then { u with name := jsTrim kv.2 }
  else if kv.1 = "email" then { u with email := normEmail kv.2 }
  else if kv.1 = "password" then { u with password := jsTrim kv.2 }
  else u

/-- PATCH `/users/me`: reject any key outside the allow-list, assign the
rest, then `save()` — validation on the assigned values, rehash of the
password when (and only when) it was modified, and the unique-index check on
`email`. -/
def updateProfile (db : DB) (u : StoredUser) (body : List (String × String)) :
    Except ApiError (StoredUser × DB) :=
  if ¬ (body.all fun kv => userAllowedUpdates.contains kv.1) then
    .error invalidUpdates
  else
    let u0 := body.foldl applyProfileField u
    if u0.name = "" then .error validationError
    else if ¬ containsChar u0.email '@' then .error validationError
    else if u0.password.length < 6 then .error validationError
    else
      let u1 := if u0.password ≠ u.password
        then { u0 with password := bcryptHash u0.password } else u0
      if db.users.any (fun x => !(x.id == u.id) && x.email == u1.email) then
        .error duplicateKeyError
      else
        .ok (u1, saveUser db u1)

/-- DELETE `/users/me`: `await req.user.deleteOne()` — removes the user
document (and with it its embedded `tokens` array).  `userSchema` registers
no cascade middleware, so the task collection is untouched. -/
def deleteAccount (db : DB) (u : StoredUser) : DB :=
  { db with users := db.users.eraseP fun x => x.id == u.id }

/-! ### Task routes (`routes/tasks.js`) -/

def parsePriority (s : String) : Option Priority :=
  if s = "low" then some .low
  else if s = "medium" then some .medium
  else if s = "high" then some .high
  else none

/-- Assigning `task[k] = v` followed by schema casting/validation on
`save()`: `description` must stay a non-empty string, `completed` a boolean,
`priority` one of the enum values, `dueDate` a date.  An unknown key is
ignored by the (strict) schema.  `none` models the `ValidationError` thrown
by `save()`. -/
def setField (t : Task) (k : String) (v : JsonValue) : Option Task :=
  if k = "description" then
    match v with
    | .str s => if jsTrim s = "" then none else some { t with description := jsTrim s }
    | _ => none
  else if k = "completed" then
    match v with
    | .bool b => some { t with completed := b }
    | _ => none
  else if k = "priority" then
    match v with
    | .str s =>
      match parsePriority s with
      | some p => some { t with priority := p }
      | none => none
    | _ => none
  else if k = "dueDate" then
    match v with
    | .num n => some { t with dueDate := some n }
    | _ => none
  else
    some t

/-- Field assignment during `new Task({...req.body, owner: req.user._id})`:
same as `setField`, except that the object literal still carries a possible
client-supplied `owner` key (the spread runs before the `owner:` entry
overwrites it). -/
def setFieldCreate (t : Task) (k : String) (v : JsonValue) : Option Task :=
  if k = "owner" then
    match v with
    | .num n => some { t with owner := n }
    | _ => none
  else
    setField t k v

/-- POST `/tasks`: `new Task({...req.body, owner: req.user._id})` then
`save()`.  The schema defaults are `completed: false`, `priority: 'medium'`,
no due date; `description` is required. -/
def createTask (db : DB) (caller : UserId) (newId : TaskId)
    (body : List (String × JsonValue)) : Except ApiError (Task × DB) :=
  let base : Task := ⟨newId, "", false, .medium, none, caller⟩
  match body.foldlM (fun acc kv => setFieldCreate acc kv.1 kv.2) base with
  | none => .error validationError
  | some t0 =>
    let t := { t0 with owner := caller }
    if t.description = "" then .error validationError
    else .ok (t, { db with tasks := db.tasks ++ [t] })

/-- GET `/tasks`: the `completed` query parameter.  `if (req.query.completed)`
is JS truthiness — absent or empty string means no filter; otherwise the
filter is `completed === (value === 'true')`.  (With `limit`/`skip`/`sortBy`
absent, the populate options are the identity: `parseInt(undefined) || 0`
gives limit 0 = unlimited and skip 0, and the empty sort object leaves the
order unchanged; they are therefore not modelled here.) -/
def listTasks (db : DB) (caller : UserId) (completedQ : Option String) :
    List Task :=
  let ownerTasks := db.tasks.filter fun t => t.owner == caller
  match completedQ with
  | none => ownerTasks
  | some s =>
    if s = "" then ownerTasks
    else ownerTasks.filter fun t => t.completed == (s == "true")

/-- `Task.findOne({_id, owner})`, the owner-scoped lookup used by
GET/PATCH/DELETE `/tasks/:id`. -/
def findTask (tasks : List Task) (i : TaskId) (owner : UserId) : Option Task :=
  tasks.find? fun t => t.id == i && t.owner == owner

/-- GET `/tasks/:id`. -/
def getById (db : DB) (caller : UserId) (i : TaskId) : Except ApiError Task :=
  match findTask db.tasks i caller with
  | none => .error taskNotFound
  | some t => .ok t

/-- PATCH `/tasks/:id` allow-list (`routes/tasks.js` line 104). -/
def taskAllowedUpdates : List String := ["description", "completed"]

/-- PATCH `/tasks/:id`: reject any key outside the allow-list, then the
owner-scoped `findOne`, then assign each field and `save()`. -/
def updateTask (db : DB) (caller : UserId) (i : TaskId)
    (body : List (String × JsonValue)) : Except ApiError (Task × DB) :=
  if ¬ (body.all fun kv => taskAllowedUpdates.contains kv.1) then
    .error invalidUpdates
  else
    match findTask db.tasks i caller with
    | none => .error taskNotFound
    | some t =>
      match body.foldlM (fun acc kv => setField acc kv.1 kv.2) t with
      | none => .error validationError
      | some t2 =>
        .ok (t2, { db with tasks := db.tasks.map fun x => if x.id == i then t2 else x })

/-- DELETE `/tasks/:id`: `Task.findOneAndDelete({_id, owner})`. -/
def deleteTask (db : DB) (caller : UserId) (i : TaskId) :
    Except ApiError (Task × DB) :=
  match findTask db.tasks i caller with
  | none => .error taskNotFound
  | some t =>
    .ok (t, { db with tasks := db.tasks.eraseP fun x => x.id == i && x.owner == caller })

/-! ### The token-array read-modify-write pattern under concurrency

`generateAuthToken` (`User.js`) performs
`user.tokens = user.tokens.concat({token}); await user.save()` and the
logout route performs `req.user.tokens = req.user.tokens.filter(...);
await req.user.save()`: each reads the whole array from the loaded document
and writes the whole array back.  Two concurrent requests for the same user
are modelled as two processes that each read a snapshot of the stored array
and later write back the array computed from their snapshot; a schedule is
the order of those four primitive events. -/

inductive RegistryOp
  | record (t : Token)
  | revoke (t : Token)

/-- The pure in-memory computation each request performs on its snapshot of
`user.tokens`. -/
def applyRegistryOp (snapshot : List Token) : RegistryOp → List Token
  | .record t => snapshot ++ [t]
  | .revoke t => snapshot.filter fun tk => tk != t

inductive RmwEvent
  | readA
  | readB
  | writeA
  | writeB

structure RmwState where
  stored : List Token
  snapA : Option (List Token)
  snapB : Option (List Token)

/-- One primitive event: a read loads the current stored array into the
process's snapshot; a write stores the array computed from the snapshot
(a process cannot write before it has read). -/
def rmwStep (opA opB : RegistryOp) (s : RmwState) : RmwEvent → RmwState
  | .readA => { s with snapA := some s.stored }
  | .readB => { s with snapB := some s.stored }
  | .writeA =>
    match s.snapA with
    | some sn => { s with stored := applyRegistryOp sn opA }
    | none => s
  | .writeB =>
    match s.snapB with
    | some sn => { s with stored := applyRegistryOp sn opB }
    | none => s

/-- Run a schedule of the two concurrent requests from an initial stored
token array and return the final stored array. -/
def runSchedule (opA opB : RegistryOp) (init : List Token)
    (evs : List RmwEvent) : List Token :=
  (evs.foldl (rmwStep opA opB) ⟨init, none, none⟩).stored

/-! ### Concrete stores used by witnesses and counterexamples -/

/-- A user (id 1) owning one task, and a second user (id 2) owning another —
the standard two-user fixture of the repository's tests. -/
def userOne : StoredUser := ⟨1, "A", "a@x.com", bcryptHash "secret1", []⟩

def userTwo : StoredUser := ⟨2, "B", "b@y.com", bcryptHash "secret2", []⟩

def taskOfOne : Task := ⟨10, "Task 1", false, .medium, none, 1⟩

def taskOfTwo : Task := ⟨20, "Task 2", true, .medium, none, 2⟩

def twoUserDb : DB := ⟨[userOne, userTwo], [taskOfOne, taskOfTwo]⟩

/-! ### Claim theorems -/

/-- **C2** (code bug).  `DELETE /users/me` runs only `req.user.deleteOne()`
and `userSchema` registers no cascade middleware, so deleting the account of
user 1 — who owns one task — removes the user document but leaves the task
stored with `owner = 1`: exactly the partial state (user gone, owned task
still stored) that the claim rules out, and the state the repository's own
test `should cascade delete tasks when user is deleted`
(`tasks.test.js`) expects not to happen. -/
theorem deleteAccount_leaves_owned_tasks :
    (deleteAccount ⟨[userOne], [taskOfOne]⟩ userOne).users = [] ∧
    (deleteAccount ⟨[userOne], [taskOfOne]⟩ userOne).tasks.filter
      (fun t => t.owner == userOne.id) = [taskOfOne] :=
  ⟨rfl, rfl⟩

/-- **C4** (code bug).  The PATCH `/tasks/:id` allow-list is
`['description', 'completed']`, so a request by the task's owner whose only
key is a well-formed `priority` (or `dueDate`) is rejected with the 400
`Invalid updates` response instead of succeeding — contradicting the claim
and the repository's own test `should update task priority` — while a
`completed` update on the same task succeeds. -/
theorem updateTask_rejects_priority_and_dueDate :
    updateTask ⟨[], [taskOfOne]⟩ 1 10 [("priority", JsonValue.str "high")] =
      .error invalidUpdates ∧
    updateTask ⟨[], [taskOfOne]⟩ 1 10 [("dueDate", JsonValue.num 1735603200)] =
      .error invalidUpdates ∧
    updateTask ⟨[], [taskOfOne]⟩ 1 10 [("completed", JsonValue.bool true)] =
      .ok (⟨10, "Task 1", true, .medium, none, 1⟩,
        ⟨[], [⟨10, "Task 1", true, .medium, none, 1⟩]⟩) :=
  ⟨rfl, rfl, rfl⟩

def tokenA : Token := ⟨⟨1, 604800⟩, 5⟩

def tokenB : Token := ⟨⟨1, 604800⟩, 6⟩

/-- **C9** (code bug).  `generateAuthToken` updates the token set by
`user.tokens = user.tokens.concat({token}); await user.save()` — a
read-whole-array / modify / write-back.  Under the schedule in which two
concurrent logins for the same user both read before either writes, the
second write overwrites the first and the first token is lost, whereas the
sequential schedule keeps both: the mutation is not an atomic append, and a
concurrently added token is lost. -/
theorem concurrent_record_loses_token :
    runSchedule (.record tokenA) (.record tokenB) []
      [.readA, .readB, .writeA, .writeB] = [tokenB] ∧
    tokenA ∉ runSchedule (.record tokenA) (.record tokenB) []
      [.readA, .readB, .writeA, .writeB] ∧
    runSchedule (.record tokenA) (.record tokenB) []
      [.readA, .writeA, .readB, .writeB] = [tokenA, tokenB] :=
  ⟨rfl, by decide, rfl⟩

/-- **C10** (confirmed).  GET `/tasks` with the `completed` query parameter:
absent or empty means no completion filter (all of the caller's tasks);
a non-empty value `s` keeps exactly the caller's tasks with
`completed = (s == "true")` — so `'true'` selects completed tasks and every
other non-empty value (`'false'`, `'yes'`, `'1'`, ...) selects incomplete
ones. -/
theorem listTasks_completed_query (db : DB) (caller : UserId) :
    listTasks db caller none = db.tasks.filter (fun t => t.owner == caller) ∧
    listTasks db caller (some "") = db.tasks.filter (fun t => t.owner == caller) ∧
    ∀ s : String, s ≠ "" → ∀ t : Task,
      (t ∈ listTasks db caller (some s) ↔
        t ∈ db.tasks ∧ t.owner = caller ∧ t.completed = (s == "true")) := by
  refine ⟨rfl, rfl, ?_⟩
  intro s hs t
  show t ∈ (if s = "" then db.tasks.filter (fun t => t.owner == caller)
    else (db.tasks.filter (fun t => t.owner == caller)).filter
      (fun t => t.completed == (s == "true"))) ↔ _
  rw [if_neg hs]
  simp only [List.mem_filter, beq_iff_eq]
  constructor
  · rintro ⟨⟨hmem, hown⟩, hcomp⟩
    exact ⟨hmem, hown, hcomp⟩
  · rintro ⟨hmem, hown, hcomp⟩
    exact ⟨⟨hmem, hown⟩, hcomp⟩

/-- **C10 witness**: in the two-user fixture, with filter value `'yes'`
user 1 sees no completed task (task 10 is incomplete and gets filtered in,
task 20 belongs to user 2), and the completed task 20 of user 2 is selected
by `'true'` for user 2. -/
theorem listTasks_completed_query_witness :
    ¬ (taskOfTwo ∈ listTasks twoUserDb 1 (some "yes")) ∧
    taskOfOne ∈ listTasks twoUserDb 1 (some "yes") ∧
    taskOfTwo ∈ listTasks twoUserDb 2 (some "true") := by
  refine ⟨?_, ?_, ?_⟩
  · intro hmem
    have h := ((listTasks_completed_query twoUserDb 1).2.2 "yes"
      (by decide) taskOfTwo).mp hmem
    have : (2 : Nat) = 1 := h.2.1
    omega
  · exact ((listTasks_completed_query twoUserDb 1).2.2 "yes"
      (by decide) taskOfOne).mpr ⟨by decide, rfl, by decide⟩
  · exact ((listTasks_completed_query twoUserDb 2).2.2 "true"
      (by decide) taskOfTwo).mpr ⟨by decide, rfl, by decide⟩

theorem findTask_some {tasks : List Task} {i : TaskId} {o : UserId} {t : Task}
    (h : findTask tasks i o = some t) : t ∈ tasks ∧ t.id = i ∧ t.owner = o := by
  unfold findTask at h
  have hm := List.mem_of_find?_eq_some h
  have hp := List.find?_some h
  simp only [Bool.and_eq_true, beq_iff_eq] at hp
  exact ⟨hm, hp.1, hp.2⟩

/-- **C3** (confirmed).  When no task matches `{_id: i, owner: caller}` —
because the id does not exist at all or because the task belongs to a
different owner — GET, PATCH (with an allow-listed body) and DELETE
`/tasks/:id` all return the one constant `taskNotFound` response
(status 404, message `Task not found`), so the two situations are
indistinguishable to the caller. -/
theorem ownerScoped_uniform_notFound (db : DB) (caller : UserId) (i : TaskId)
    (h : ∀ t ∈ db.tasks, ¬ (t.id = i ∧ t.owner = caller)) :
    getById db caller i = .error taskNotFound ∧
    deleteTask db caller i = .error taskNotFound ∧
    ∀ body, body.all (fun kv => taskAllowedUpdates.contains kv.1) = true →
      updateTask db caller i body = .error taskNotFound := by
  have hfind : findTask db.tasks i caller = none := by
    unfold findTask
    rw [List.find?_eq_none]
    intro t ht
    simp only [Bool.and_eq_true, beq_iff_eq, not_and]
    intro h1 h2
    exact h t ht ⟨h1, h2⟩
  refine ⟨?_, ?_, ?_⟩
  · unfold getById
    rw [hfind]
  · unfold deleteTask
    rw [hfind]
  · intro body hb
    unfold updateTask
    rw [if_neg (not_not_intro hb), hfind]

/-- **C3 witness**: user 1 gets the same `taskNotFound` for task 20 (exists,
owned by user 2) and for task 99 (does not exist), from all three
operations. -/
theorem ownerScoped_uniform_notFound_witness :
    getById twoUserDb 1 20 = .error taskNotFound ∧
    getById twoUserDb 1 99 = .error taskNotFound ∧
    deleteTask twoUserDb 1 20 = .error taskNotFound ∧
    updateTask twoUserDb 1 20 [("completed", JsonValue.bool true)] =
      .error taskNotFound := by
  have h20 := ownerScoped_uniform_notFound twoUserDb 1 20 (by decide)
  have h99 := ownerScoped_uniform_notFound twoUserDb 1 99 (by decide)
  exact ⟨h20.1, h99.1, h20.2.1, h20.2.2 _ (by decide)⟩

theorem setField_preserves {t t2 : Task} {k : String} {v : JsonValue}
    (h : setField t k v = some t2) : t2.owner = t.owner ∧ t2.id = t.id := by
  unfold setField at h
  repeat' split at h
  all_goals first
    | (cases h; exact ⟨rfl, rfl⟩)
    | cases h

theorem foldlM_setField_owner (body : List (String × JsonValue)) (t t2 : Task)
    (h : body.foldlM (fun acc kv => setField acc kv.1 kv.2) t = some t2) :
    t2.owner = t.owner := by
  induction body generalizing t with
  | nil =>
    cases h
    rfl
  | cons kv rest ih =>
    rw [List.foldlM_cons] at h
    cases hs : setField t kv.1 kv.2 with
    | none =>
      rw [hs] at h
      cases h
    | some tm =>
      rw [hs] at h
      have h1 := ih tm h
      have h2 := (setField_preserves hs).1
      rw [h1, h2]

/-- **C7** (confirmed).  POST `/tasks` sets `owner: req.user._id` after
spreading `req.body` (a client-supplied `owner` is overwritten), and PATCH
`/tasks/:id` can only reach tasks already owned by the caller and applies
only `setField` assignments, which never touch `owner`: every task a caller
can create or update has that caller as its owner, so the owner is fixed for
the task's whole lifetime. -/
theorem task_owner_fixed (db : DB) (caller : UserId) :
    (∀ newId body t db1, createTask db caller newId body = .ok (t, db1) →
      t.owner = caller) ∧
    (∀ i body t2 db2, updateTask db caller i body = .ok (t2, db2) →
      t2.owner = caller) := by
  constructor
  · intro newId body t db1 h
    simp only [createTask] at h
    split at h
    · cases h
    · split at h
      · cases h
      · cases h
        rfl
  · intro i body t2 db2 h
    unfold updateTask at h
    split at h
    · cases h
    · split at h
      · cases h
      · rename_i t hft
        split at h
        · cases h
        · rename_i tt hfm
          cases h
          exact (foldlM_setField_owner body t _ hfm).trans (findTask_some hft).2.2

/-- **C7 witness**: creating a task with a client-supplied `owner: 2` in the
body still yields owner 1 (the caller), and a successful `completed` update
by user 1 keeps owner 1. -/
theorem task_owner_fixed_witness :
    (⟨30, "x", false, .medium, none, 1⟩ : Task).owner = 1 ∧
    (⟨10, "Task 1", true, .medium, none, 1⟩ : Task).owner = 1 :=
  ⟨(task_owner_fixed twoUserDb 1).1 30
      [("description", JsonValue.str "x"), ("owner", JsonValue.num 2)]
      ⟨30, "x", false, .medium, none, 1⟩
      ⟨[userOne, userTwo], [taskOfOne, taskOfTwo, ⟨30, "x", false, .medium, none, 1⟩]⟩
      rfl,
   (task_owner_fixed twoUserDb 1).2 10 [("completed", JsonValue.bool true)]
      ⟨10, "Task 1", true, .medium, none, 1⟩
      ⟨[userOne, userTwo], [⟨10, "Task 1", true, .medium, none, 1⟩, taskOfTwo]⟩
      rfl⟩

theorem jwtVerify_eq_some {secret : String} {now : Nat} {t : Token} {uid : UserId}
    (h : jwtVerify secret now t = some uid) :
    t.sig = jwtMac secret t.payload ∧ now < t.payload.exp ∧ uid = t.payload.uid := by
  unfold jwtVerify at h
  split at h
  · rename_i hc
    cases h
    exact ⟨hc.1, hc.2, rfl⟩
  · cases h

theorem findUserWithToken_eq_some {db : DB} {uid : UserId} {t : Token} {x : StoredUser}
    (h : findUserWithToken db uid t = some x) :
    x ∈ db.users ∧ x.id = uid ∧ t ∈ x.tokens := by
  unfold findUserWithToken at h
  have hm := List.mem_of_find?_eq_some h
  have hp := List.find?_some h
  simp only [Bool.and_eq_true, beq_iff_eq] at hp
  exact ⟨hm, hp.1, List.elem_iff.mp hp.2⟩

/-- After a `save()` that replaced user `u`'s document by `u2`, no user whose
id is `u.id` still holds a token absent from `u2.tokens`. -/
theorem findUserWithToken_saveUser_none (db : DB) (u u2 : StoredUser)
    (t : Token) (hid : u2.id = u.id) (ht : t ∉ u2.tokens) :
    findUserWithToken (saveUser db u2) u.id t = none := by
  unfold findUserWithToken saveUser
  rw [List.find?_eq_none]
  intro x' hx'
  simp only [List.mem_map] at hx'
  obtain ⟨x, hx, hfx⟩ := hx'
  simp only [Bool.and_eq_true, beq_iff_eq, not_and]
  intro hxid
  by_cases hcase : x.id == u2.id
  · rw [if_pos hcase] at hfx
    subst hfx
    intro hcontains
    exact ht (List.elem_iff.mp hcontains)
  · rw [if_neg hcase] at hfx
    subst hfx
    exfalso
    rw [hid] at hcase
    exact hcase (beq_iff_eq.mpr hxid)

/-- **C1** (confirmed).  The guard accepts a bearer token `t` carrying user
`u`'s id exactly when the signature verifies under the server secret, `t` is
unexpired, and `t` is still in `u`'s stored token set; `logout` removes
exactly that token so the same request is then rejected with the 401
`authError` even though `jwt.verify` alone would still accept the token, and
after `logoutAll` every token carrying `u`'s id that was in `u`'s set is
rejected. -/
theorem guard_accepts_iff_membership (secret : String) (now : Nat) (db : DB)
    (u : StoredUser) (t : Token)
    (hids : (db.users.map StoredUser.id).Nodup)
    (hu : u ∈ db.users) (hid : t.payload.uid = u.id) :
    ((∃ r, auth secret now db (some t) = .ok r) ↔
      t.sig = jwtMac secret t.payload ∧ now < t.payload.exp ∧ t ∈ u.tokens) ∧
    (t.sig = jwtMac secret t.payload → now < t.payload.exp →
      jwtVerify secret now t = some u.id) ∧
    auth secret now (logout db u t) (some t) = .error authError ∧
    (∀ s ∈ u.tokens, s.payload.uid = u.id →
      auth secret now (logoutAll db u) (some s) = .error authError) := by
  have hverify : ∀ (h1 : t.sig = jwtMac secret t.payload) (h2 : now < t.payload.exp),
      jwtVerify secret now t = some u.id := by
    intro h1 h2
    unfold jwtVerify
    rw [if_pos ⟨h1, h2⟩, hid]
  refine ⟨⟨?_, ?_⟩, hverify, ?_, ?_⟩
  · rintro ⟨r, hr⟩
    simp only [auth] at hr
    cases hv : jwtVerify secret now t with
    | none =>
      simp only [hv] at hr
      cases hr
    | some uid =>
      simp only [hv] at hr
      cases hfu : findUserWithToken db uid t with
      | none =>
        simp only [hfu] at hr
        cases hr
      | some x =>
        obtain ⟨hs, he, huid⟩ := jwtVerify_eq_some hv
        obtain ⟨hxm, hxid, hxt⟩ := findUserWithToken_eq_some hfu
        have hxu : x = u := by
          apply List.inj_on_of_nodup_map hids hxm hu
          rw [hxid, huid, hid]
        rw [hxu] at hxt
        exact ⟨hs, he, hxt⟩
  · rintro ⟨h1, h2, hmem⟩
    have hv := hverify h1 h2
    simp only [auth, hv]
    cases hfu : findUserWithToken db u.id t with
    | none =>
      exfalso
      unfold findUserWithToken at hfu
      rw [List.find?_eq_none] at hfu
      apply hfu u hu
      rw [Bool.and_eq_true]
      exact ⟨beq_self_eq_true u.id, List.elem_iff.mpr hmem⟩
    | some x =>
      exact ⟨(x, t), by simp only [hfu]⟩
  · simp only [auth]
    cases hv : jwtVerify secret now t with
    | none => simp only [hv]
    | some uid =>
      obtain ⟨_, _, huid⟩ := jwtVerify_eq_some hv
      have hnone : findUserWithToken (logout db u t) uid t = none := by
        rw [huid, hid]
        apply findUserWithToken_saveUser_none
        · rfl
        · intro hc
          have := (List.mem_filter.mp hc).2
          rw [bne_iff_ne] at this
          exact this rfl
      simp only [hv, hnone]
  · intro s hs hsid
    simp only [auth]
    cases hv : jwtVerify secret now s with
    | none => simp only [hv]
    | some uid =>
      obtain ⟨_, _, huid⟩ := jwtVerify_eq_some hv
      have hnone : findUserWithToken (logoutAll db u) uid s = none := by
        rw [huid, hsid]
        apply findUserWithToken_saveUser_none
        · rfl
        · exact List.not_mem_nil s
      simp only [hv, hnone]

def sessionUser : StoredUser := ⟨1, "A", "a@x.com", bcryptHash "secret1", [jwtSign "s" 1 0]⟩

def sessionDb : DB := ⟨[sessionUser], []⟩

/-- **C1 witness**: in a store holding user 1 with the token issued at
time 0, that token passes the guard, and after `logout` (resp. `logoutAll`)
it is rejected with the 401 response while still unexpired. -/
theorem guard_accepts_iff_membership_witness :
    auth "s" 1 (logout sessionDb sessionUser (jwtSign "s" 1 0))
      (some (jwtSign "s" 1 0)) = .error authError ∧
    auth "s" 1 (logoutAll sessionDb sessionUser)
      (some (jwtSign "s" 1 0)) = .error authError ∧
    jwtVerify "s" 1 (jwtSign "s" 1 0) = some 1 := by
  have h := guard_accepts_iff_membership "s" 1 sessionDb sessionUser
    (jwtSign "s" 1 0) (by decide) (by decide) rfl
  exact ⟨h.2.2.1, h.2.2.2 (jwtSign "s" 1 0) (by decide) rfl, h.2.1 rfl (by decide)⟩

/-! ### Client-facing user payloads

Express `res.send(user)` runs `JSON.stringify`, which calls the schema's
`toJSON` method; each wrapper below is a route's success payload. -/

def keysOf (o : List (String × JsonValue)) : List String := o.map Prod.fst

/-- POST `/users/signup` → `res.status(201).send({user, token})`. -/
def signupResponse (db : DB) (newId : UserId) (now : Nat) (secret : String)
    (name email password : String) :
    Except ApiError (List (String × JsonValue) × Token) :=
  (signup db newId now secret name email password).map fun r => (toJSON r.1, r.2.1)

/-- POST `/users/login` → `res.send({user, token})`. -/
def loginResponse (db : DB) (now : Nat) (secret : String) (email password : String) :
    Except ApiError (List (String × JsonValue) × Token) :=
  (login db now secret email password).map fun r => (toJSON r.1, r.2.1)

/-- GET `/users/me` → `res.send(req.user)`. -/
def profileResponse (secret : String) (now : Nat) (db : DB) (cred : Option Token) :
    Except ApiError (List (String × JsonValue)) :=
  (auth secret now db cred).map fun r => toJSON r.1

/-- PATCH `/users/me` → `res.send(req.user)` after the update. -/
def updateProfileResponse (db : DB) (u : StoredUser) (body : List (String × String)) :
    Except ApiError (List (String × JsonValue)) :=
  (updateProfile db u body).map fun r => toJSON r.1

/-- DELETE `/users/me` → `res.send(req.user)` after `deleteOne()`. -/
def deleteAccountResponse (db : DB) (u : StoredUser) :
    List (String × JsonValue) × DB :=
  (toJSON u, deleteAccount db u)

theorem keysOf_toJSON (v : StoredUser) :
    keysOf (toJSON v) = ["_id", "name", "email"] := rfl

/-- **C8** (confirmed).  `toJSON` unconditionally deletes `password` and
`tokens` from the serialized document, and every client-facing user payload —
registration, login, get-profile, update-profile, account deletion — is
produced through it, so no response ever carries the password hash or the
session token set. -/
theorem user_responses_redacted (db : DB) (newId : UserId) (now : Nat)
    (secret : String) (name email password le lp : String) (u : StoredUser)
    (body : List (String × String)) (cred : Option Token) :
    (∀ pl tok, signupResponse db newId now secret name email password = .ok (pl, tok) →
      "password" ∉ keysOf pl ∧ "tokens" ∉ keysOf pl) ∧
    (∀ pl tok, loginResponse db now secret le lp = .ok (pl, tok) →
      "password" ∉ keysOf pl ∧ "tokens" ∉ keysOf pl) ∧
    (∀ pl, profileResponse secret now db cred = .ok pl →
      "password" ∉ keysOf pl ∧ "tokens" ∉ keysOf pl) ∧
    (∀ pl, updateProfileResponse db u body = .ok pl →
      "password" ∉ keysOf pl ∧ "tokens" ∉ keysOf pl) ∧
    ("password" ∉ keysOf (deleteAccountResponse db u).1 ∧
      "tokens" ∉ keysOf (deleteAccountResponse db u).1) := by
  have hred : ∀ v : StoredUser,
      "password" ∉ keysOf (toJSON v) ∧ "tokens" ∉ keysOf (toJSON v) := by
    intro v
    rw [keysOf_toJSON]
    exact ⟨by decide, by decide⟩
  refine ⟨?_, ?_, ?_, ?_, hred u⟩
  · intro pl tok h
    unfold signupResponse at h
    cases hs : signup db newId now secret name email password with
    | error er => rw [hs] at h; cases h
    | ok r =>
      rw [hs] at h
      cases h
      exact hred r.1
  · intro pl tok h
    unfold loginResponse at h
    cases hs : login db now secret le lp with
    | error er => rw [hs] at h; cases h
    | ok r =>
      rw [hs] at h
      cases h
      exact hred r.1
  · intro pl h
    unfold profileResponse at h
    cases hs : auth secret now db cred with
    | error er => rw [hs] at h; cases h
    | ok r =>
      rw [hs] at h
      cases h
      exact hred r.1
  · intro pl h
    unfold updateProfileResponse at h
    cases hs : updateProfile db u body with
    | error er => rw [hs] at h; cases h
    | ok r =>
      rw [hs] at h
      cases h
      exact hred r.1

def publicUserA : List (String × JsonValue) :=
  [("_id", JsonValue.num 1), ("name", JsonValue.str "A"),
   ("email", JsonValue.str "a@x.com")]

/-- **C8 witness**: concrete successful signup, login, get-profile and
update-profile responses all carry the redacted payload. -/
theorem user_responses_redacted_witness :
    "password" ∉ keysOf publicUserA ∧ "tokens" ∉ keysOf publicUserA := by
  have h := user_responses_redacted (⟨[], []⟩ : DB) 1 0 "s" "A" "a@x.com"
    "secret1" "a@x.com" "secret1" sessionUser [] (some (jwtSign "s" 1 0))
  have h1 := h.1 publicUserA (jwtSign "s" 1 0) (by rfl)
  have h2 := (user_responses_redacted sessionDb 1 1 "s" "A" "a@x.com"
    "secret1" "a@x.com" "secret1" sessionUser [("name", "A")]
    (some (jwtSign "s" 1 0))).2.2.1 publicUserA (by rfl)
  exact ⟨h1.1, h2.2⟩

/-! ### Registration / authentication round trip -/

/-- **C5 counterexample** (claim as stated is false).  The password schema
path has `trim: true`, so registering with the submitted plaintext
`" secret1"` (leading space) stores `hash("secret1")`; `findByCredentials`
compares the raw submitted login password, so logging in with exactly the
original plaintext `" secret1"` fails, while the different string
`"secret1"` succeeds — refuting both directions of "succeeds exactly when
given the original plaintext password". -/
theorem authenticate_original_plaintext_fails :
    signup ⟨[], []⟩ 1 0 "s" "A" "a@x.com" " secret1" =
      .ok (sessionUser, jwtSign "s" 1 0, sessionDb) ∧
    findByCredentials sessionDb sessionUser.email " secret1" =
      .error unableToLogin ∧
    " secret1" ≠ "secret1" ∧
    findByCredentials sessionDb sessionUser.email "secret1" = .ok sessionUser :=
  ⟨by rfl, by rfl, by decide, by rfl⟩

theorem findByCredentials_append_fresh (users : List StoredUser)
    (tasks : List Task) (uu : StoredUser) (cand : String)
    (hnone : ∀ x ∈ users, x.email ≠ uu.email) :
    findByCredentials ⟨users ++ [uu], tasks⟩ uu.email cand =
      if bcryptCompare cand uu.password then .ok uu
      else .error unableToLogin := by
  unfold findByCredentials
  show (match (users ++ [uu]).find? (fun x => x.email == uu.email) with
    | none => Except.error unableToLogin
    | some u => if bcryptCompare cand u.password then Except.ok u
                else Except.error unableToLogin) = _
  have hfind : (users ++ [uu]).find? (fun x => x.email == uu.email) = some uu := by
    rw [List.find?_append]
    have h1 : users.find? (fun x => x.email == uu.email) = none := by
      rw [List.find?_eq_none]
      intro x hx
      simp only [beq_iff_eq]
      exact hnone x hx
    rw [h1]
    simp [List.find?_cons]
  rw [hfind]

/-- **C5 amended** (corrected).  For every successful registration the
persisted password is never the submitted plaintext, and `findByCredentials`
with the stored email succeeds exactly on the *trimmed* submitted plaintext
(the submitted plaintext itself whenever it carries no surrounding
whitespace) and fails with the generic `Unable to login` for every other
candidate string. -/
theorem register_then_authenticate (db : DB) (newId : UserId) (now : Nat)
    (secret name email pw : String) (u : StoredUser) (tok : Token) (db1 : DB)
    (h : signup db newId now secret name email pw = .ok (u, tok, db1)) :
    u.password ≠ pw ∧
    ∀ cand, findByCredentials db1 u.email cand =
      if cand = jsTrim pw then .ok u else .error unableToLogin := by
  simp only [signup] at h
  split at h
  · cases h
  · split at h
    · cases h
    · split at h
      · cases h
      · split at h
        · cases h
        · rename_i hname hemail hpw hdup
          cases h
          constructor
          · intro heq
            apply bcryptHash_trim_ne pw.data
            have hd := congrArg String.data heq
            rw [show (bcryptHash (jsTrim pw)).data =
              "bcrypt8$".data ++ trimChars pw.data from String.data_append _ _] at hd
            exact hd
          · intro cand
            have hnone : ∀ x ∈ db.users,
                x.email ≠ (⟨newId, jsTrim name, normEmail email,
                  bcryptHash (jsTrim pw), [jwtSign secret newId now]⟩ :
                    StoredUser).email := by
              intro x hx hxe
              apply hdup
              rw [List.any_eq_true]
              refine ⟨x, hx, ?_⟩
              rw [Bool.or_eq_true]
              right
              exact beq_iff_eq.mpr hxe
            rw [findByCredentials_append_fresh db.users db.tasks _ cand hnone]
            by_cases hc : cand = jsTrim pw
            · rw [if_pos hc,
                if_pos ((bcryptCompare_hash cand (jsTrim pw)).mpr hc)]
            · rw [if_neg hc,
                if_neg (fun hcontra =>
                  hc ((bcryptCompare_hash cand (jsTrim pw)).mp hcontra))]

def regUser : StoredUser := ⟨2, "B", "b@y.com", bcryptHash "hunter2", [jwtSign "k" 2 0]⟩

def regDb : DB := ⟨[regUser], []⟩

/-- **C5 witness**: a concrete registration with plaintext `hunter2` stores
a different string, and login with `hunter2` succeeds. -/
theorem register_then_authenticate_witness :
    regUser.password ≠ "hunter2" ∧
    findByCredentials regDb regUser.email "hunter2" = .ok regUser := by
  have h := register_then_authenticate ⟨[], []⟩ 2 0 "k" "B" "b@y.com"
    "hunter2" regUser (jwtSign "k" 2 0) regDb (by rfl)
  refine ⟨h.1, ?_⟩
  have h2 := h.2 "hunter2"
  rw [if_pos (by rfl)] at h2
  exact h2

/-! ### Case-insensitive email uniqueness -/

theorem normEmail_idem (e : String) : normEmail (normEmail e) = normEmail e := by
  unfold normEmail
  rw [jsTrim_jsToLower, jsTrim_idem, jsToLower_idem]

theorem nodup_append_singleton {α : Type} {l : List α} {a : α}
    (h1 : l.Nodup) (h2 : a ∉ l) : (l ++ [a]).Nodup := by
  rw [List.nodup_append]
  exact ⟨h1, List.nodup_singleton a, by simp [List.disjoint_singleton, h2]⟩

/-- The store invariant behind case-insensitive email uniqueness: every
stored email is already in the schema's normal form (lowercased, trimmed),
and stored emails — like document ids — are pairwise distinct (the unique
indexes). -/
def EmailInv (db : DB) : Prop :=
  (∀ u ∈ db.users, u.email = normEmail u.email) ∧
  (db.users.map StoredUser.email).Nodup ∧
  (db.users.map StoredUser.id).Nodup

/-- The write operations of the credential store: `POST /users/signup` and
`PATCH /users/me` (the latter on the authenticated user of the given id). -/
inductive AccountOp
  | register (newId : UserId) (name email password : String)
  | updateProf (uid : UserId) (body : List (String × String))

def runOp (secret : String) (now : Nat) (db : DB) : AccountOp → DB
  | .register newId n e p =>
    match signup db newId now secret n e p with
    | .ok r => r.2.2
    | .error _ => db
  | .updateProf uid body =>
    match db.users.find? (fun x => x.id == uid) with
    | none => db
    | some u =>
      match updateProfile db u body with
      | .ok r => r.2
      | .error _ => db

def runOps (secret : String) (now : Nat) (db : DB) (ops : List AccountOp) : DB :=
  ops.foldl (runOp secret now) db

theorem signup_preserves_EmailInv {db : DB} {newId : UserId} {now : Nat}
    {secret name email password : String} {u : StoredUser} {tok : Token}
    {db1 : DB} (hInv : EmailInv db)
    (h : signup db newId now secret name email password = .ok (u, tok, db1)) :
    EmailInv db1 := by
  simp only [signup] at h
  split at h
  · cases h
  · split at h
    · cases h
    · split at h
      · cases h
      · split at h
        · cases h
        · rename_i hname hemail hpw hdup
          cases h
          obtain ⟨hnorm, hem, hid⟩ := hInv
          have hall : ∀ x ∈ db.users,
              x.id ≠ newId ∧ x.email ≠ normEmail email := by
            intro x hx
            constructor
            · intro hcontra
              exact hdup (List.any_eq_true.mpr
                ⟨x, hx, by rw [Bool.or_eq_true, beq_iff_eq]
                           exact Or.inl hcontra⟩)
            · intro hcontra
              exact hdup (List.any_eq_true.mpr
                ⟨x, hx, by rw [Bool.or_eq_true, beq_iff_eq, beq_iff_eq]
                           exact Or.inr hcontra⟩)
          refine ⟨?_, ?_, ?_⟩
          · intro x hx
            rw [List.mem_append] at hx
            cases hx with
            | inl hmem => exact hnorm x hmem
            | inr hmem =>
              rw [List.mem_singleton] at hmem
              subst hmem
              exact (normEmail_idem email).symm
          · rw [List.map_append]
            apply nodup_append_singleton hem
            intro hmem
            rw [List.mem_map] at hmem
            obtain ⟨x, hx, hxe⟩ := hmem
            exact (hall x hx).2 hxe
          · rw [List.map_append]
            apply nodup_append_singleton hid
            intro hmem
            rw [List.mem_map] at hmem
            obtain ⟨x, hx, hxe⟩ := hmem
            exact (hall x hx).1 hxe

theorem foldl_applyProfileField_id (body : List (String × String))
    (u : StoredUser) : (body.foldl applyProfileField u).id = u.id := by
  induction body generalizing u with
  | nil => rfl
  | cons kv rest ih =>
    rw [List.foldl_cons]
    rw [ih (applyProfileField u kv)]
    unfold applyProfileField
    split
    · rfl
    · split
      · rfl
      · split
        · rfl
        · rfl

theorem foldl_applyProfileField_email (body : List (String × String))
    (u : StoredUser) :
    (body.foldl applyProfileField u).email = u.email ∨
      ∃ v, (body.foldl applyProfileField u).email = normEmail v := by
  induction body generalizing u with
  | nil => exact Or.inl rfl
  | cons kv rest ih =>
    rw [List.foldl_cons]
    cases ih (applyProfileField u kv) with
    | inl heq =>
      rw [heq]
      unfold applyProfileField
      split
      · exact Or.inl rfl
      · split
        · exact Or.inr ⟨kv.2, rfl⟩
        · split
          · exact Or.inl rfl
          · exact Or.inl rfl
    | inr hex => exact Or.inr hex

theorem nodup_email_replace (l : List StoredUser) (u1 : StoredUser)
    (hidnd : (l.map StoredUser.id).Nodup)
    (hemnd : (l.map StoredUser.email).Nodup)
    (hguard : ∀ x ∈ l, x.id ≠ u1.id → x.email ≠ u1.email) :
    ((l.map fun x => if x.id == u1.id then u1 else x).map
      StoredUser.email).Nodup := by
  induction l with
  | nil => exact List.nodup_nil
  | cons a l ih =>
    simp only [List.map_cons, List.nodup_cons] at hidnd hemnd ⊢
    obtain ⟨haid, hidnd⟩ := hidnd
    obtain ⟨haem, hemnd⟩ := hemnd
    have htail := ih hidnd hemnd
      (fun x hx => hguard x (List.mem_cons_of_mem a hx))
    by_cases hcase : a.id = u1.id
    · rw [if_pos (beq_iff_eq.mpr hcase)]
      refine ⟨?_, htail⟩
      intro hmem
      rw [List.mem_map] at hmem
      obtain ⟨z, hz, hze⟩ := hmem
      rw [List.mem_map] at hz
      obtain ⟨x, hx, hxz⟩ := hz
      have hxid : x.id ≠ u1.id := by
        intro hcontra
        apply haid
        rw [List.mem_map]
        exact ⟨x, hx, by rw [hcontra, hcase]⟩
      rw [if_neg (fun hb => hxid (beq_iff_eq.mp hb))] at hxz
      subst hxz
      exact hguard x (List.mem_cons_of_mem a hx) hxid hze
    · rw [if_neg (fun hb => hcase (beq_iff_eq.mp hb))]
      refine ⟨?_, htail⟩
      intro hmem
      rw [List.mem_map] at hmem
      obtain ⟨z, hz, hze⟩ := hmem
      rw [List.mem_map] at hz
      obtain ⟨x, hx, hxz⟩ := hz
      by_cases hxid : x.id = u1.id
      · rw [if_pos (beq_iff_eq.mpr hxid)] at hxz
        subst hxz
        exact hguard a (List.mem_cons_self a l) hcase hze.symm
      · rw [if_neg (fun hb => hxid (beq_iff_eq.mp hb))] at hxz
        subst hxz
        apply haem
        rw [List.mem_map]
        exact ⟨x, hx, hze⟩

theorem saveUser_ids (db : DB) (u1 : StoredUser) :
    (saveUser db u1).users.map StoredUser.id = db.users.map StoredUser.id := by
  unfold saveUser
  rw [List.map_map]
  apply List.map_congr_left
  intro x _
  show (if x.id == u1.id then u1 else x).id = x.id
  by_cases hcase : x.id = u1.id
  · rw [if_pos (beq_iff_eq.mpr hcase)]
    exact hcase.symm
  · rw [if_neg (fun hb => hcase (beq_iff_eq.mp hb))]

theorem saveUser_preserves_EmailInv (db : DB) (u uh : StoredUser)
    (hInv : EmailInv db) (hu : u ∈ db.users)
    (hhem : uh.email = u.email ∨ ∃ v, uh.email = normEmail v)
    (hguard : ∀ x ∈ db.users, x.id ≠ uh.id → x.email ≠ uh.email) :
    EmailInv (saveUser db uh) := by
  obtain ⟨hnorm, hem, hid⟩ := hInv
  refine ⟨?_, ?_, ?_⟩
  · intro x hx
    unfold saveUser at hx
    rw [List.mem_map] at hx
    obtain ⟨y, hy, hyx⟩ := hx
    by_cases hcase : y.id = uh.id
    · rw [if_pos (beq_iff_eq.mpr hcase)] at hyx
      subst hyx
      cases hhem with
      | inl he =>
        rw [he]
        exact hnorm u hu
      | inr he =>
        obtain ⟨v, hv⟩ := he
        rw [hv]
        exact (normEmail_idem v).symm
    · rw [if_neg (fun hb => hcase (beq_iff_eq.mp hb))] at hyx
      subst hyx
      exact hnorm y hy
  · unfold saveUser
    exact nodup_email_replace db.users uh hid hem hguard
  · rw [saveUser_ids]
    exact hid

theorem updateProfile_preserves_EmailInv {db : DB} {u u1 : StoredUser}
    {body : List (String × String)} {db1 : DB}
    (hInv : EmailInv db) (hu : u ∈ db.users)
    (h : updateProfile db u body = .ok (u1, db1)) : EmailInv db1 := by
  have main : ∀ uh : StoredUser, uh.id = u.id →
      (uh.email = u.email ∨ ∃ v, uh.email = normEmail v) →
      (¬ (db.users.any fun x => !(x.id == u.id) && x.email == uh.email) = true) →
      EmailInv (saveUser db uh) := by
    intro uh hhid hhem hconf
    apply saveUser_preserves_EmailInv db u uh hInv hu hhem
    intro x hx hxid hxe
    apply hconf
    rw [List.any_eq_true]
    refine ⟨x, hx, ?_⟩
    rw [Bool.and_eq_true, beq_iff_eq]
    refine ⟨?_, hxe⟩
    have hfalse : (x.id == u.id) = false := by
      rw [← Bool.not_eq_true]
      intro hb
      exact hxid (by rw [beq_iff_eq.mp hb, hhid])
    rw [hfalse]
    rfl
  simp only [updateProfile] at h
  split at h
  · cases h
  · split at h
    · cases h
    · split at h
      · cases h
      · split at h
        · cases h
        · split at h
          · split at h
            · cases h
            · rename_i hconf
              cases h
              refine main _ (foldl_applyProfileField_id body u)
                (foldl_applyProfileField_email body u) hconf
          · split at h
            · cases h
            · rename_i hconf
              cases h
              refine main _ (foldl_applyProfileField_id body u)
                (foldl_applyProfileField_email body u) hconf

theorem runOp_preserves_EmailInv (secret : String) (now : Nat) (db : DB)
    (op : AccountOp) (hInv : EmailInv db) :
    EmailInv (runOp secret now db op) := by
  cases op with
  | register newId n e p =>
    show EmailInv (match signup db newId now secret n e p with
      | .ok r => r.2.2
      | .error _ => db)
    split
    · rename_i r hr
      exact signup_preserves_EmailInv hInv hr
    · exact hInv
  | updateProf uid body =>
    show EmailInv (match db.users.find? (fun x => x.id == uid) with
      | none => db
      | some u =>
        match updateProfile db u body with
        | .ok r => r.2
        | .error _ => db)
    split
    · exact hInv
    · rename_i u hfind
      split
      · rename_i r hup
        exact updateProfile_preserves_EmailInv hInv
          (List.mem_of_find?_eq_some hfind) hup
      · exact hInv

theorem runOps_preserves_EmailInv (secret : String) (now : Nat)
    (ops : List AccountOp) (db : DB) (hInv : EmailInv db) :
    EmailInv (runOps secret now db ops) := by
  induction ops generalizing db with
  | nil => exact hInv
  | cons op rest ih =>
    exact ih (runOp secret now db op) (runOp_preserves_EmailInv secret now db op hInv)

/-- **C6** (confirmed).  The email schema path lowercases (and trims) every
stored email and MongoDB's unique index rejects a duplicate, so a second
registration whose email equals the first one up to letter case (same
normalized form) fails with the duplicate-key 400 while the first record
stays stored; and the no-two-users-with-case-equal-emails invariant
`EmailInv` is preserved by every sequence of register / update-profile
operations. -/
theorem email_unique_caseInsensitive (db : DB) (newId1 newId2 : UserId)
    (now : Nat) (secret n1 e1 p1 n2 e2 p2 : String) (u1 : StoredUser)
    (tok1 : Token) (db1 : DB)
    (h1 : signup db newId1 now secret n1 e1 p1 = .ok (u1, tok1, db1))
    (hcase : normEmail e2 = normEmail e1)
    (hn : jsTrim n2 ≠ "") (hp : 6 ≤ (jsTrim p2).length) :
    signup db1 newId2 now secret n2 e2 p2 = .error duplicateKeyError ∧
    u1 ∈ db1.users ∧ u1.email = normEmail e1 ∧
    (∀ (ops : List AccountOp) (db0 : DB), EmailInv db0 →
      EmailInv (runOps secret now db0 ops)) := by
  simp only [signup] at h1
  split at h1
  · cases h1
  · split at h1
    · cases h1
    · split at h1
      · cases h1
      · split at h1
        · cases h1
        · rename_i hname1 hat1 hpw1 hdup1
          cases h1
          rw [Decidable.not_not] at hat1
          refine ⟨?_, ?_, rfl, fun ops db0 h0 => runOps_preserves_EmailInv secret now ops db0 h0⟩
          · simp only [signup]
            rw [if_neg hn]
            rw [hcase]
            rw [if_neg (Decidable.not_not.mpr hat1)]
            rw [if_neg (Nat.not_lt.mpr hp)]
            rw [if_pos]
            rw [List.any_eq_true]
            refine ⟨⟨newId1, jsTrim n1, normEmail e1, bcryptHash (jsTrim p1),
              [jwtSign secret newId1 now]⟩, ?_, ?_⟩
            · rw [List.mem_append]
              exact Or.inr (List.mem_singleton.mpr rfl)
            · rw [Bool.or_eq_true]
              right
              exact beq_self_eq_true _
          · rw [List.mem_append]
            exact Or.inr (List.mem_singleton.mpr rfl)

/-- **C6 witness**: with user `a@x.com` registered, registering
`" A@X.Com "` (case and whitespace variant, otherwise valid) fails with the
duplicate-key error, and the invariant holds after running the concrete
register sequence from the empty store. -/
theorem email_unique_caseInsensitive_witness :
    signup sessionDb 2 0 "s" "B" " A@X.Com " "hunter2" =
      .error duplicateKeyError ∧
    EmailInv (runOps "s" 0 ⟨[], []⟩
      [.register 1 "A" "a@x.com" "secret1",
       .updateProf 1 [("name", "AA")]]) := by
  have h := email_unique_caseInsensitive ⟨[], []⟩ 1 2 0 "s" "A" "a@x.com"
    "secret1" "B" " A@X.Com " "hunter2" sessionUser (jwtSign "s" 1 0)
    sessionDb (by rfl) (by decide) (by decide) (by decide)
  refine ⟨h.1, ?_⟩
  apply h.2.2.2
  exact ⟨fun v hv => absurd hv (List.not_mem_nil v), List.nodup_nil,
    List.nodup_nil⟩

end TaskManager
